import Mathlib

/-!
Verification of the JioSaavn catalog client (src/app.py, class SaavnApiService).

The embedding models:
* the JSON value space returned by json.loads (Json),
* HTTP responses as status/text pairs; the network is an oracle from request
  URL to an optional response (None models a raised network error),
* json.loads itself as an abstract oracle String → Option Json,
* Python str.replace (all occurrences, left to right, non-overlapping),
  str.find-based cleaning, urllib.parse.quote, and the two operations
  search_songs and get_streaming_url, including which Python-level
  exceptions are caught by the try blocks and which escape.
-/

set_option autoImplicit false

namespace Rhythmix

/-- JSON values as produced by json.loads (numbers restricted to integers;
objects are association lists, first binding wins on lookup). -/
inductive Json : Type where
  | null : Json
  | bool : Bool → Json
  | num : Int → Json
  | str : String → Json
  | arr : List Json → Json
  | obj : List (String × Json) → Json

/-- An HTTP response as seen by the client: status code and body text. -/
structure HttpResponse where
  status : Nat
  text : String
deriving DecidableEq

/-- The two user-facing failure conditions raised by get_streaming_url, plus
the uncaught TypeError that escapes when urllib.parse.quote is applied to a
non-string value (line 63 of app.py sits outside both try blocks). -/
inductive StreamErr : Type where
  | detailsNotFound : StreamErr
  | tokenExpiredOrInvalid : StreamErr
  | uncaughtTypeError : StreamErr
deriving DecidableEq

/-! ### List-of-characters machinery for Python string primitives -/

/-- Boolean test: p is a prefix of s. -/
def pfxOf : List Char → List Char → Bool
  | [], _ => true
  | _ :: _, [] => false
  | a :: p, b :: s => a = b && pfxOf p s

/-- Propositional form of being a prefix. -/
def isPfx (p s : List Char) : Prop := ∃ t, s = p ++ t

/-- Boolean membership of a character in a list. -/
def memC (c : Char) : List Char → Bool
  | [] => false
  | b :: l => b = c || memC c l

/-- Boolean test: p occurs as a contiguous substring of s. -/
def containsPat (p : List Char) : List Char → Bool
  | [] => pfxOf p []
  | c :: rest => pfxOf p (c :: rest) || containsPat p rest

/-- p occurs as a contiguous substring of s. -/
def occursIn (p s : List Char) : Prop := ∃ a b, s = a ++ p ++ b

/-- Index of the first occurrence of a character, as Python str.find
(none when absent). -/
def findIdx (c : Char) : List Char → Option Nat
  | [] => none
  | b :: l => if b = c then some 0 else (findIdx c l).map (· + 1)

/-- Fuel-driven core of Python str.replace: replace every non-overlapping
occurrence of p by q, scanning left to right.  The fuel argument only makes
the recursion structural; it is irrelevant as soon as it bounds the length
of the subject list. -/
def replaceAllF (p q : List Char) : Nat → List Char → List Char
  | 0, s => s
  | _ + 1, [] => []
  | fuel + 1, c :: rest =>
    if p ≠ [] ∧ pfxOf p (c :: rest) = true then
      q ++ replaceAllF p q fuel (List.drop (p.length - 1) rest)
    else
      c :: replaceAllF p q fuel rest

/-- Python str.replace on character lists (nonempty pattern: replaces every
non-overlapping occurrence left to right; empty pattern: identity, a case the
client never exercises). -/
def replaceAll (p q s : List Char) : List Char := replaceAllF p q s.length s

/-- Python s.replace(old, new) on strings. -/
def pyReplace (s old new : String) : String :=
  String.mk (replaceAll old.data new.data s.data)

/-- Modelled from the spec: the first-occurrence-only substitution semantics
that the specification ascribes to the URL transformation ("only the first
applies if present"), used to compare against the source's str.replace. -/
def replaceFirstL (p q : List Char) : List Char → List Char
  | [] => []
  | c :: rest =>
    if p ≠ [] ∧ pfxOf p (c :: rest) = true then
      q ++ List.drop (p.length - 1) rest
    else
      c :: replaceFirstL p q rest

/-- Modelled from the spec: URL transformation under first-occurrence-only
substitution semantics. -/
def pyReplaceFirst (s old new : String) : String :=
  String.mk (replaceFirstL old.data new.data s.data)

/-! ### Python response cleaning (search endpoint) -/

/-- List-level body cleaning: from the first brace onward when one exists;
Python str.find returns -1 when the character is absent, and a slice from
-1 keeps only the last character (the empty list stays empty). -/
def cleanL (l : List Char) : List Char :=
  match findIdx '{' l with
  | some i => l.drop i
  | none =>
    match l.reverse with
    | [] => []
    | c :: _ => [c]

/-- The body cleaning performed by search_songs:
response.text[response.text.find(x7b):]. -/
def cleanJson (t : String) : String := String.mk (cleanL t.data)

/-! ### urllib.parse.quote -/

/-- UTF-8 byte sequence of a character (as natural numbers below 256). -/
def utf8Bytes (c : Char) : List Nat :=
  let n := c.toNat
  if n < 0x80 then [n]
  else if n < 0x800 then [0xC0 + n / 0x40, 0x80 + n % 0x40]
  else if n < 0x10000 then
    [0xE0 + n / 0x1000, 0x80 + n / 0x40 % 0x40, 0x80 + n % 0x40]
  else
    [0xF0 + n / 0x40000, 0x80 + n / 0x1000 % 0x40, 0x80 + n / 0x40 % 0x40,
      0x80 + n % 0x40]

/-- Uppercase hexadecimal digit. -/
def hexDigit (n : Nat) : Char :=
  if n < 10 then Char.ofNat (n + 48) else Char.ofNat (n + 55)

/-- Percent-encoding of one byte, uppercase hex as in urllib.parse.quote. -/
def percentByte (b : Nat) : List Char :=
  ['%', hexDigit (b / 16), hexDigit (b % 16)]

/-- Characters urllib.parse.quote leaves unencoded with the default
safe value: ASCII letters, digits, the marks in _.-~ and the slash. -/
def quoteSafe (c : Char) : Bool :=
  (('a' ≤ c && c ≤ 'z') || ('A' ≤ c && c ≤ 'Z') || ('0' ≤ c && c ≤ '9')
    || c = '_' || c = '.' || c = '-' || c = '~' || c = '/')

/-- urllib.parse.quote with default arguments: safe characters pass through,
everything else is percent-encoded byte by byte over UTF-8. -/
def quote (s : String) : String :=
  String.mk (s.data.flatMap fun c =>
    if quoteSafe c then [c] else (utf8Bytes c).flatMap percentByte)

/-! ### Request construction (class constants and f-strings of app.py) -/

/-- BASE_URL constant of SaavnApiService. -/
def BASE_URL : String := "https://www.jiosaavn.com/api.php"

/-- API_PARAMS constant of SaavnApiService. -/
def API_PARAMS : String := "&_format=json&_marker=0&api_version=4&ctx=web6dot0"

/-- Request URL built by search_songs. -/
def searchUrl (query : String) : String :=
  BASE_URL ++ "?__call=search.getResults&q=" ++ quote query ++ API_PARAMS

/-- Request URL built by step 1 of get_streaming_url (the song id is
interpolated without encoding). -/
def detailsUrl (songId : String) : String :=
  BASE_URL ++ "?__call=song.getDetails&pids=" ++ songId ++ API_PARAMS

/-- Request URL built by step 2 of get_streaming_url. -/
def tokenUrl (enc : String) : String :=
  BASE_URL ++ "?__call=song.generateAuthToken&url=" ++ quote enc
    ++ "&bitrate=320" ++ API_PARAMS

/-! ### Python dict / list operations on Json values

Each helper returns Except Unit when the corresponding Python expression can
raise (TypeError, KeyError, AttributeError); inside the try blocks of
app.py every such exception is caught, so the distinctions collapse. -/

/-- Python membership test (key in d) for a string key against a Json value:
dict key lookup, list element comparison, substring test on strings; a
TypeError on the remaining shapes. -/
def jsonHasKey (key : String) : Json → Except Unit Bool
  | .obj fs => .ok (fs.lookup key).isSome
  | .arr xs => .ok (arrHasStr xs)
  | .str s => .ok (containsPat key.data s.data)
  | _ => .error ()
where
  /-- Python equality of a string against list elements: only str elements
  can compare equal. -/
  arrHasStr : List Json → Bool
    | [] => false
    | .str s :: l => s = key || arrHasStr l
    | _ :: l => arrHasStr l

/-- Python indexing d[key] with a string key: dict lookup (KeyError when
absent); TypeError on lists and strings (string index), TypeError otherwise. -/
def jsonIndex (key : String) : Json → Except Unit Json
  | .obj fs =>
    match fs.lookup key with
    | some v => .ok v
    | none => .error ()
  | _ => .error ()

/-- Python len: length of lists and strings, key count of dicts, TypeError
otherwise. -/
def jsonLen : Json → Except Unit Nat
  | .arr xs => .ok xs.length
  | .str s => .ok s.length
  | .obj fs => .ok fs.length
  | _ => .error ()

/-- Python indexing d[0]: first element of a list, one-character string of a
string; KeyError on dicts (JSON object keys are strings), TypeError
otherwise. -/
def jsonIndexZero : Json → Except Unit Json
  | .arr [] => .error ()
  | .arr (x :: _) => .ok x
  | .str s =>
    match s.data with
    | [] => .error ()
    | c :: _ => .ok (.str (String.mk [c]))
  | _ => .error ()

/-- Python d.get(key, default): lookup with default on dicts,
AttributeError on every other shape. -/
def jsonGetD (key : String) (dflt : Json) : Json → Except Unit Json
  | .obj fs => .ok ((fs.lookup key).getD dflt)
  | _ => .error ()

/-! ### The two operations of SaavnApiService

The network is an oracle net : String → Option HttpResponse mapping a request
URL to its response; none models requests.get raising.  json.loads is an
oracle loads : String → Option Json; none models a parse error. -/

/-- search_songs: build the search URL, require status 200, clean the body
from the first brace onward, parse it, and return its results field; every
failure path (network error, non-200 status, parse failure, non-dict body)
is swallowed into an empty list. -/
def search_songs (loads : String → Option Json)
    (net : String → Option HttpResponse) (query : String) : Json :=
  match net (searchUrl query) with
  | none => .arr []
  | some r =>
    if r.status = 200 then
      match loads (cleanJson r.text) with
      | none => .arr []
      | some (.obj fs) => (fs.lookup "results").getD (.arr [])
      | some _ => .arr []
    else .arr []

/-- The validation step 1 performs on the parsed details data: the Python
conditionals of lines 48-56, with every raising sub-expression propagating
its exception (all of them are caught by the enclosing try). -/
def step1Data (data : Json) : Except Unit Json :=
  match jsonHasKey "songs" data with
  | .error e => .error e
  | .ok false => .error ()
  | .ok true =>
    match jsonIndex "songs" data with
    | .error e => .error e
    | .ok songs =>
      match jsonLen songs with
      | .error e => .error e
      | .ok n =>
        if n > 0 then
          match jsonIndexZero songs with
          | .error e => .error e
          | .ok songData =>
            match jsonGetD "more_info" (.obj []) songData with
            | .error e => .error e
            | .ok moreInfo =>
              match jsonHasKey "encrypted_media_url" moreInfo with
              | .error e => .error e
              | .ok false => .error ()
              | .ok true => jsonIndex "encrypted_media_url" moreInfo
        else .error ()

/-- Step 1 of get_streaming_url: fetch and validate the details response,
yielding the raw encrypted_media_url value (any Json shape); every exception
inside the first try block maps to the single details error. -/
def step1 (loads : String → Option Json) (resp : Option HttpResponse) :
    Except Unit Json :=
  match resp with
  | none => .error ()
  | some r =>
    match loads r.text with
    | none => .error ()
    | some data => step1Data data

/-- The URL transformation applied to auth_url on line 73 of app.py:
two chained str.replace calls. -/
def transformUrl (u : String) : String :=
  pyReplace (pyReplace u "web.saavncdn.com" "aac.saavncdn.com")
    "_96.mp4" "_320.mp4"

/-- Step 2 of get_streaming_url: parse the token response, require a string
auth_url, and return the transformed URL; every exception inside the second
try block maps to the token error. -/
def step2 (loads : String → Option Json) (resp : Option HttpResponse) :
    Except StreamErr String :=
  match resp with
  | none => .error .tokenExpiredOrInvalid
  | some r =>
    match loads r.text with
    | none => .error .tokenExpiredOrInvalid
    | some (.obj fs) =>
      match fs.lookup "auth_url" with
      | some (.str u) => .ok (transformUrl u)
      | _ => .error .tokenExpiredOrInvalid
    | some _ => .error .tokenExpiredOrInvalid

/-- get_streaming_url: the two-step resolution protocol.  A step-1 failure is
re-raised as the details error; quoting a non-string encrypted_media_url
raises a TypeError outside both try blocks, which escapes; otherwise the
token request is issued and step 2 decides the outcome. -/
def get_streaming_url (loads : String → Option Json)
    (net : String → Option HttpResponse) (songId : String) :
    Except StreamErr String :=
  match step1 loads (net (detailsUrl songId)) with
  | .error _ => .error .detailsNotFound
  | .ok (.str enc) => step2 loads (net (tokenUrl enc))
  | .ok _ => .error .uncaughtTypeError

/-! ### Prefix and substring lemmas -/

theorem pfxOf_iff : ∀ p s : List Char, pfxOf p s = true ↔ isPfx p s := by
  intro p
  induction p with
  | nil =>
    intro s
    constructor
    · intro _; exact ⟨s, rfl⟩
    · intro _; rfl
  | cons a p ih =>
    intro s
    cases s with
    | nil =>
      simp only [pfxOf, isPfx]
      constructor
      · intro h; exact absurd h (by simp)
      · rintro ⟨t, ht⟩; exact absurd ht (by simp)
    | cons b s =>
      simp only [pfxOf, Bool.and_eq_true, decide_eq_true_eq, ih, isPfx]
      constructor
      · rintro ⟨rfl, t, rfl⟩; exact ⟨t, rfl⟩
      · rintro ⟨t, ht⟩
        injection ht with h1 h2
        exact ⟨h1.symm, t, h2⟩

theorem memC_iff : ∀ c (l : List Char), memC c l = true ↔ c ∈ l := by
  intro c l
  induction l with
  | nil => simp [memC]
  | cons b l ih =>
    simp only [memC, Bool.or_eq_true, decide_eq_true_eq, ih, List.mem_cons]
    constructor
    · rintro (rfl | h)
      · exact Or.inl rfl
      · exact Or.inr h
    · rintro (rfl | h)
      · exact Or.inl rfl
      · exact Or.inr h

theorem occursIn_nil_iff (p : List Char) : occursIn p [] ↔ p = [] := by
  constructor
  · rintro ⟨a, b, h⟩
    rcases List.append_eq_nil.mp h.symm with ⟨h1, _⟩
    exact (List.append_eq_nil.mp h1).2
  · rintro rfl; exact ⟨[], [], rfl⟩

theorem occursIn_cons_iff (p : List Char) (c : Char) (s : List Char) :
    occursIn p (c :: s) ↔ isPfx p (c :: s) ∨ occursIn p s := by
  constructor
  · rintro ⟨a, b, h⟩
    cases a with
    | nil => exact Or.inl ⟨b, by simpa using h⟩
    | cons x a2 =>
      right
      rw [List.cons_append] at h
      injection h with _ h2
      exact ⟨a2, b, h2⟩
  · rintro (⟨t, ht⟩ | ⟨a, b, h⟩)
    · exact ⟨[], t, by simpa using ht⟩
    · exact ⟨c :: a, b, by rw [h]; rfl⟩

theorem containsPat_iff : ∀ (p s : List Char), containsPat p s = true ↔ occursIn p s := by
  intro p s
  induction s with
  | nil =>
    simp only [containsPat, occursIn_nil_iff, pfxOf_iff, isPfx]
    constructor
    · rintro ⟨t, ht⟩
      exact (List.append_eq_nil.mp ht.symm).1
    · rintro rfl; exact ⟨[], rfl⟩
  | cons c rest ih =>
    simp only [containsPat, Bool.or_eq_true, pfxOf_iff, ih, occursIn_cons_iff]

instance occursIn.decidable (p s : List Char) : Decidable (occursIn p s) :=
  decidable_of_iff (containsPat p s = true) (containsPat_iff p s)

/-- A list equal to an initial take of another list is its prefix. -/
theorem isPfx_of_eq_take {t q : List Char} (h : t = List.take t.length q) :
    isPfx t q := by
  refine ⟨List.drop t.length q, ?_⟩
  conv_lhs => rw [← List.take_append_drop t.length q]
  rw [← h]

/-- The prefix relation against an append splits at the boundary. -/
theorem isPfx_append_elim {t q z : List Char} (h : isPfx t (q ++ z)) :
    isPfx t q ∨ isPfx q t := by
  rcases h with ⟨w, hw⟩
  by_cases hlen : t.length ≤ q.length
  · left
    have h1 : List.take t.length (q ++ z) = List.take t.length q :=
      List.take_append_of_le_length hlen
    have h2 : List.take t.length (t ++ w) = t := List.take_left t w
    rw [hw, h2] at h1
    exact isPfx_of_eq_take h1
  · right
    push_neg at hlen
    have hle : q.length ≤ t.length := Nat.le_of_lt hlen
    have h1 : List.take q.length (q ++ z) = q := List.take_left q z
    have h2 : List.take q.length (t ++ w) = List.take q.length t :=
      List.take_append_of_le_length hle
    rw [hw, h2] at h1
    exact isPfx_of_eq_take h1.symm

/-- Splitting a prefix that is longer than the first summand of an append. -/
theorem isPfx_append_split {pt u z : List Char} (h : isPfx pt (u ++ z))
    (hlen : u.length < pt.length) :
    u = List.take u.length pt ∧ isPfx (List.drop u.length pt) z := by
  rcases h with ⟨w, hw⟩
  have hle : u.length ≤ pt.length := Nat.le_of_lt hlen
  have h1 : List.take u.length (u ++ z) = u := List.take_left u z
  have h2 : List.take u.length (pt ++ w) = List.take u.length pt :=
    List.take_append_of_le_length hle
  rw [hw, h2] at h1
  refine ⟨h1.symm, ?_⟩
  have h3 : List.drop u.length (u ++ z) = z := List.drop_left u z
  have h4 : List.drop u.length (pt ++ w) = List.drop u.length pt ++ w :=
    List.drop_append_of_le_length hle
  rw [hw, h4] at h3
  exact ⟨w, h3.symm⟩

/-- A short prefix of an append is a prefix of the first summand. -/
theorem isPfx_append_short {pt u z : List Char} (h : isPfx pt (u ++ z))
    (hlen : pt.length ≤ u.length) : isPfx pt u := by
  rcases h with ⟨w, hw⟩
  have h1 : List.take pt.length (u ++ z) = List.take pt.length u :=
    List.take_append_of_le_length hlen
  have h2 : List.take pt.length (pt ++ w) = pt := List.take_left pt w
  rw [hw, h2] at h1
  exact isPfx_of_eq_take h1

theorem isPfx_append_right {pt u : List Char} (h : isPfx pt u) (z : List Char) :
    isPfx pt (u ++ z) := by
  rcases h with ⟨w, hw⟩
  exact ⟨w ++ z, by rw [hw, List.append_assoc]⟩

/-- An occurrence of p in a suffix gives an occurrence in the whole list. -/
theorem occursIn_of_append {p u z : List Char} (h : occursIn p z) :
    occursIn p (u ++ z) := by
  rcases h with ⟨a, b, hab⟩
  exact ⟨u ++ a, b, by rw [hab]; simp [List.append_assoc]⟩

/-! ### Equational theory of replaceAll -/

theorem replaceAllF_nil (p q : List Char) (f : Nat) :
    replaceAllF p q f [] = [] := by
  cases f <;> rfl

/-- The fuel is irrelevant once it bounds the length of the subject. -/
theorem replaceAllF_irrel (p q : List Char) :
    ∀ n s f g, s.length ≤ n → s.length ≤ f → s.length ≤ g →
      replaceAllF p q f s = replaceAllF p q g s := by
  intro n
  induction n with
  | zero =>
    intro s f g hn _ _
    have hs : s = [] := List.length_eq_zero.mp (Nat.le_zero.mp hn)
    subst hs
    rw [replaceAllF_nil, replaceAllF_nil]
  | succ n ih =>
    intro s f g hn hf hg
    cases s with
    | nil => rw [replaceAllF_nil, replaceAllF_nil]
    | cons c rest =>
      have hf1 : 1 ≤ f := le_trans (Nat.succ_le_succ (Nat.zero_le _)) hf
      have hg1 : 1 ≤ g := le_trans (Nat.succ_le_succ (Nat.zero_le _)) hg
      obtain ⟨f1, rfl⟩ : ∃ f1, f = f1 + 1 :=
        ⟨f - 1, by omega⟩
      obtain ⟨g1, rfl⟩ : ∃ g1, g = g1 + 1 :=
        ⟨g - 1, by omega⟩
      simp only [replaceAllF]
      have hrest : rest.length ≤ n := by
        simpa [Nat.succ_le_succ_iff] using hn
      have hrf : rest.length ≤ f1 := by
        simpa [Nat.succ_le_succ_iff] using hf
      have hrg : rest.length ≤ g1 := by
        simpa [Nat.succ_le_succ_iff] using hg
      have hdlen : (List.drop (p.length - 1) rest).length ≤ rest.length := by
        rw [List.length_drop]; omega
      by_cases hcond : p ≠ [] ∧ pfxOf p (c :: rest) = true
      · rw [if_pos hcond, if_pos hcond,
          ih _ f1 g1 (le_trans hdlen hrest) (le_trans hdlen hrf)
            (le_trans hdlen hrg)]
      · rw [if_neg hcond, if_neg hcond, ih rest f1 g1 hrest hrf hrg]

theorem replaceAll_nil (p q : List Char) : replaceAll p q [] = [] := rfl

theorem replaceAll_cons_pos {p : List Char} (q : List Char) {c : Char}
    {rest : List Char} (hp : p ≠ []) (hpf : pfxOf p (c :: rest) = true) :
    replaceAll p q (c :: rest) =
      q ++ replaceAll p q (List.drop (p.length - 1) rest) := by
  show replaceAllF p q (c :: rest).length (c :: rest) = _
  rw [List.length_cons]
  simp only [replaceAllF, if_pos (And.intro hp hpf)]
  congr 1
  exact replaceAllF_irrel p q rest.length _ _ _
    (by rw [List.length_drop]; omega)
    (by rw [List.length_drop]; omega)
    (le_refl _)

theorem replaceAll_cons_neg {p : List Char} (q : List Char) {c : Char}
    {rest : List Char} (hpf : ¬(p ≠ [] ∧ pfxOf p (c :: rest) = true)) :
    replaceAll p q (c :: rest) = c :: replaceAll p q rest := by
  show replaceAllF p q (c :: rest).length (c :: rest) = _
  rw [List.length_cons]
  simp only [replaceAllF, if_neg hpf]
  rfl

/-- A pattern-free subject is left unchanged, no error raised. -/
theorem replaceAll_id (p q : List Char) :
    ∀ s, ¬ occursIn p s → replaceAll p q s = s := by
  intro s
  induction s with
  | nil => intro _; exact replaceAll_nil p q
  | cons c rest ih =>
    intro hno
    rw [occursIn_cons_iff] at hno
    push_neg at hno
    have hpf : ¬(p ≠ [] ∧ pfxOf p (c :: rest) = true) := by
      rintro ⟨_, hp⟩
      exact hno.1 ((pfxOf_iff p (c :: rest)).mp hp)
    rw [replaceAll_cons_neg q hpf, ih hno.2]

/-- Every subject either contains no occurrence and is returned unchanged,
or splits at the first replaced occurrence. -/
theorem replaceAll_decomp (p q : List Char) (hp : p ≠ []) :
    ∀ s, (replaceAll p q s = s ∧ ¬ occursIn p s) ∨
      (∃ u v, s = u ++ p ++ v ∧
        replaceAll p q s = u ++ q ++ replaceAll p q v) := by
  intro s
  induction s with
  | nil =>
    left
    refine ⟨replaceAll_nil p q, ?_⟩
    rw [occursIn_nil_iff]
    exact hp
  | cons c rest ih =>
    by_cases hpf : pfxOf p (c :: rest) = true
    · right
      rcases (pfxOf_iff p (c :: rest)).mp hpf with ⟨t, ht⟩
      refine ⟨[], t, by simpa using ht, ?_⟩
      rw [replaceAll_cons_pos q hp hpf]
      obtain ⟨ph, pt, rfl⟩ : ∃ ph pt, p = ph :: pt := by
        cases p with
        | nil => exact absurd rfl hp
        | cons ph pt => exact ⟨ph, pt, rfl⟩
      have hrest : rest = pt ++ t := by
        have h2 : c :: rest = ph :: (pt ++ t) := by simpa using ht
        exact (List.cons_eq_cons.mp h2).2
      have hdrop : List.drop ((ph :: pt).length - 1) rest = t := by
        rw [hrest, List.length_cons, Nat.add_sub_cancel, List.drop_left]
      rw [hdrop]
      simp
    · have hcond : ¬(p ≠ [] ∧ pfxOf p (c :: rest) = true) := by
        rintro ⟨_, h⟩; exact hpf h
      rcases ih with ⟨hid, hno⟩ | ⟨u, v, hrest, hra⟩
      · left
        refine ⟨by rw [replaceAll_cons_neg q hcond, hid], ?_⟩
        rw [occursIn_cons_iff]
        rintro (hpre | hocc)
        · exact hpf ((pfxOf_iff p (c :: rest)).mpr hpre)
        · exact hno hocc
      · right
        refine ⟨c :: u, v, by rw [hrest]; rfl, ?_⟩
        rw [replaceAll_cons_neg q hcond, hra]
        rfl

/-- No occurrence of the pattern ph :: pt can cross a block u when no suffix
of u and the pattern are prefix-comparable, and the remainder is
occurrence-free. -/
theorem notOcc_append (ph : Char) (pt u x : List Char)
    (hO : ∀ i, i < u.length →
      pfxOf (List.drop i u) (ph :: pt) = false ∧
      pfxOf (ph :: pt) (List.drop i u) = false)
    (hx : ¬ occursIn (ph :: pt) x) : ¬ occursIn (ph :: pt) (u ++ x) := by
  rintro ⟨a, b, hab⟩
  by_cases hlen : u.length ≤ a.length
  · apply hx
    have hx1 : List.drop u.length (u ++ x) = x := List.drop_left u x
    have hx2 : List.drop u.length (a ++ ((ph :: pt) ++ b)) =
        List.drop u.length a ++ ((ph :: pt) ++ b) :=
      List.drop_append_of_le_length hlen
    rw [hab, List.append_assoc, hx2] at hx1
    exact ⟨List.drop u.length a, b, by rw [← hx1, List.append_assoc]⟩
  · push_neg at hlen
    have hle : a.length ≤ u.length := Nat.le_of_lt hlen
    have hd1 : List.drop a.length (u ++ x) =
        List.drop a.length u ++ x := List.drop_append_of_le_length hle
    have hd2 : List.drop a.length (a ++ ((ph :: pt) ++ b)) = (ph :: pt) ++ b :=
      List.drop_left a _
    rw [hab, List.append_assoc, hd2] at hd1
    have hpfx : isPfx (List.drop a.length u) ((ph :: pt) ++ b) :=
      ⟨x, hd1⟩
    rcases isPfx_append_elim hpfx with h | h
    · exact absurd ((pfxOf_iff _ _).mpr h) (by simp [(hO a.length hlen).1])
    · exact absurd ((pfxOf_iff _ _).mpr h) (by simp [(hO a.length hlen).2])

/-- The tail pt of the pattern cannot be a prefix of a block u followed by
an inserted replacement q when it was not a prefix of u followed by the
original text. -/
theorem tail_pfx_false (ph : Char) (pt q : List Char)
    (h2 : ∀ k, k < pt.length + 1 → 0 < k →
      pfxOf (List.drop k (ph :: pt)) q = false ∧
      pfxOf q (List.drop k (ph :: pt)) = false)
    (u xv Y : List Char)
    (hnp : ¬ isPfx pt (u ++ xv)) (hp : isPfx pt (u ++ (q ++ Y))) : False := by
  by_cases hlen : pt.length ≤ u.length
  · exact hnp (isPfx_append_right (isPfx_append_short hp hlen) xv)
  · push_neg at hlen
    rcases isPfx_append_split hp hlen with ⟨_, hsuf⟩
    have hkdrop : List.drop (u.length + 1) (ph :: pt) = List.drop u.length pt :=
      List.drop_succ_cons
    have hk1 : u.length + 1 < pt.length + 1 := by omega
    have hboth := h2 (u.length + 1) hk1 (Nat.succ_pos _)
    rw [hkdrop] at hboth
    rcases isPfx_append_elim hsuf with h | h
    · exact absurd ((pfxOf_iff _ _).mpr h) (by simp [hboth.1])
    · exact absurd ((pfxOf_iff _ _).mpr h) (by simp [hboth.2])

/-- After replaceAll with pattern ph :: pt, no occurrence of the pattern
remains, provided the replacement q neither contains the pattern, overlaps
it at a boundary, nor recreates it (the two pfxOf conditions). -/
theorem replaceAll_no_pattern (ph : Char) (pt q : List Char)
    (hO : ∀ i, i < q.length →
      pfxOf (List.drop i q) (ph :: pt) = false ∧
      pfxOf (ph :: pt) (List.drop i q) = false)
    (h2 : ∀ k, k < pt.length + 1 → 0 < k →
      pfxOf (List.drop k (ph :: pt)) q = false ∧
      pfxOf q (List.drop k (ph :: pt)) = false) :
    ∀ s, ¬ occursIn (ph :: pt) (replaceAll (ph :: pt) q s) := by
  suffices H : ∀ n s, s.length ≤ n →
      ¬ occursIn (ph :: pt) (replaceAll (ph :: pt) q s) by
    intro s
    exact H s.length s (le_refl _)
  intro n
  induction n with
  | zero =>
    intro s hs
    have hnil : s = [] := List.length_eq_zero.mp (Nat.le_zero.mp hs)
    subst hnil
    rw [replaceAll_nil, occursIn_nil_iff]
    simp
  | succ n ih =>
    intro s hs
    cases s with
    | nil =>
      rw [replaceAll_nil, occursIn_nil_iff]
      simp
    | cons c rest =>
      rw [List.length_cons] at hs
      by_cases hpf : pfxOf (ph :: pt) (c :: rest) = true
      · rw [replaceAll_cons_pos q (by simp) hpf]
        have hlen : (List.drop ((ph :: pt).length - 1) rest).length ≤ n := by
          rw [List.length_drop]
          omega
        exact notOcc_append ph pt q _ hO (ih _ hlen)
      · rw [replaceAll_cons_neg q (by rintro ⟨_, h⟩; exact hpf h),
          occursIn_cons_iff]
        rintro (hpre | hocc)
        · rcases hpre with ⟨w, hw⟩
          have hw2 : c :: replaceAll (ph :: pt) q rest = ph :: (pt ++ w) := by
            simpa using hw
          have hc : c = ph := (List.cons_eq_cons.mp hw2).1
          have hptRA : isPfx pt (replaceAll (ph :: pt) q rest) :=
            ⟨w, (List.cons_eq_cons.mp hw2).2⟩
          have hnpt : ¬ isPfx pt rest := by
            rintro ⟨w2, hw2b⟩
            apply hpf
            rw [pfxOf_iff]
            exact ⟨w2, by rw [hw2b, hc]; rfl⟩
          rcases replaceAll_decomp (ph :: pt) q (by simp) rest with
            ⟨hid, _⟩ | ⟨u, v, hru, hra⟩
          · rw [hid] at hptRA
            exact hnpt hptRA
          · rw [hra, List.append_assoc] at hptRA
            refine tail_pfx_false ph pt q h2 u ((ph :: pt) ++ v)
              (replaceAll (ph :: pt) q v) ?_ hptRA
            rw [← List.append_assoc, ← hru]
            exact hnpt
        · exact ih rest (by omega) hocc

/-- replaceAll with a different pattern p2 preserves freeness from the
pattern ph :: pt, provided the replacement q2 cannot take part in an
occurrence of it (the two pfxOf conditions). -/
theorem replaceAll_keeps_free (ph : Char) (pt p2 q2 : List Char)
    (hp2 : p2 ≠ [])
    (hO : ∀ i, i < q2.length →
      pfxOf (List.drop i q2) (ph :: pt) = false ∧
      pfxOf (ph :: pt) (List.drop i q2) = false)
    (h2 : ∀ k, k < pt.length + 1 → 0 < k →
      pfxOf (List.drop k (ph :: pt)) q2 = false ∧
      pfxOf q2 (List.drop k (ph :: pt)) = false) :
    ∀ s, ¬ occursIn (ph :: pt) s →
      ¬ occursIn (ph :: pt) (replaceAll p2 q2 s) := by
  suffices H : ∀ n s, s.length ≤ n → ¬ occursIn (ph :: pt) s →
      ¬ occursIn (ph :: pt) (replaceAll p2 q2 s) by
    intro s
    exact H s.length s (le_refl _)
  intro n
  induction n with
  | zero =>
    intro s hs _
    have hnil : s = [] := List.length_eq_zero.mp (Nat.le_zero.mp hs)
    subst hnil
    rw [replaceAll_nil, occursIn_nil_iff]
    simp
  | succ n ih =>
    intro s hs hno
    cases s with
    | nil =>
      rw [replaceAll_nil, occursIn_nil_iff]
      simp
    | cons c rest =>
      rw [List.length_cons] at hs
      rw [occursIn_cons_iff] at hno
      push_neg at hno
      by_cases hpf2 : pfxOf p2 (c :: rest) = true
      · rw [replaceAll_cons_pos q2 hp2 hpf2]
        have hnod : ¬ occursIn (ph :: pt) (List.drop (p2.length - 1) rest) := by
          intro h
          apply hno.2
          have hsplit : rest =
              List.take (p2.length - 1) rest ++ List.drop (p2.length - 1) rest :=
            (List.take_append_drop _ rest).symm
          rw [hsplit]
          exact occursIn_of_append h
        have hlen : (List.drop (p2.length - 1) rest).length ≤ n := by
          rw [List.length_drop]
          omega
        exact notOcc_append ph pt q2 _ hO (ih _ hlen hnod)
      · rw [replaceAll_cons_neg q2 (by rintro ⟨_, h⟩; exact hpf2 h),
          occursIn_cons_iff]
        rintro (hpre | hocc)
        · rcases hpre with ⟨w, hw⟩
          have hw2 : c :: replaceAll p2 q2 rest = ph :: (pt ++ w) := by
            simpa using hw
          have hc : c = ph := (List.cons_eq_cons.mp hw2).1
          have hptRA : isPfx pt (replaceAll p2 q2 rest) :=
            ⟨w, (List.cons_eq_cons.mp hw2).2⟩
          have hnpt : ¬ isPfx pt rest := by
            rintro ⟨w2, hw2b⟩
            apply hno.1
            exact ⟨w2, by rw [hw2b, hc]; rfl⟩
          rcases replaceAll_decomp p2 q2 hp2 rest with
            ⟨hid, _⟩ | ⟨u, v, hru, hra⟩
          · rw [hid] at hptRA
            exact hnpt hptRA
          · rw [hra, List.append_assoc] at hptRA
            refine tail_pfx_false ph pt q2 h2 u (p2 ++ v)
              (replaceAll p2 q2 v) ?_ hptRA
            rw [← List.append_assoc, ← hru]
            exact hnpt
        · exact ih rest (by omega) hno.2 hocc

/-! ### The two concrete substitution patterns of the URL transformation -/

/-- Character list of the CDN host pattern. -/
def webL : List Char := ("web.saavncdn.com").data

/-- Character list of the CDN host replacement. -/
def aacL : List Char := ("aac.saavncdn.com").data

/-- Character list of the bitrate suffix pattern. -/
def s96L : List Char := ("_96.mp4").data

/-- Character list of the bitrate suffix replacement. -/
def s320L : List Char := ("_320.mp4").data

theorem webL_eq : webL = 'w' :: ("eb.saavncdn.com").data := by decide

theorem s96L_eq : s96L = '_' :: ("96.mp4").data := by decide

/-- The host substitution leaves no occurrence of its own pattern behind. -/
theorem web_free (s : List Char) : ¬ occursIn webL (replaceAll webL aacL s) := by
  rw [webL_eq]
  exact replaceAll_no_pattern 'w' (("eb.saavncdn.com").data) aacL
    (by decide) (by decide) s

/-- The suffix substitution leaves no occurrence of its own pattern behind. -/
theorem s96_free (s : List Char) :
    ¬ occursIn s96L (replaceAll s96L s320L s) := by
  rw [s96L_eq]
  exact replaceAll_no_pattern '_' (("96.mp4").data) s320L
    (by decide) (by decide) s

/-- The suffix substitution cannot reintroduce the host pattern. -/
theorem web_keeps (s : List Char) (h : ¬ occursIn webL s) :
    ¬ occursIn webL (replaceAll s96L s320L s) := by
  rw [webL_eq] at h ⊢
  exact replaceAll_keeps_free 'w' (("eb.saavncdn.com").data) s96L s320L
    (by decide) (by decide) (by decide) s h

/-- List-level idempotence of the composed URL transformation. -/
theorem transformL_idem (l : List Char) :
    replaceAll s96L s320L (replaceAll webL aacL
      (replaceAll s96L s320L (replaceAll webL aacL l))) =
    replaceAll s96L s320L (replaceAll webL aacL l) := by
  have h1 : ¬ occursIn webL (replaceAll s96L s320L (replaceAll webL aacL l)) :=
    web_keeps _ (web_free l)
  rw [replaceAll_id webL aacL _ h1]
  exact replaceAll_id s96L s320L _ (s96_free _)

/-! ### Claim theorems -/

/-- C7: the URL transformation is a pure function and idempotent — applying
it twice to any auth_url equals applying it once; the documented example
input maps to the documented output; and any input containing neither
the host pattern nor the bitrate suffix pattern is returned unchanged. -/
theorem C7_transform_pure_idempotent :
    (∀ s : String, transformUrl (transformUrl s) = transformUrl s) ∧
    transformUrl ("https://web.saavncdn.com/track_96.mp4?x=1") =
      ("https://aac.saavncdn.com/track_320.mp4?x=1") ∧
    (∀ s : String, ¬ occursIn webL s.data → ¬ occursIn s96L s.data →
      transformUrl s = s) := by
  refine ⟨?_, by decide, ?_⟩
  · intro s
    show String.mk (replaceAll s96L s320L (replaceAll webL aacL
      (replaceAll s96L s320L (replaceAll webL aacL s.data)))) =
      String.mk (replaceAll s96L s320L (replaceAll webL aacL s.data))
    exact congrArg String.mk (transformL_idem s.data)
  · intro s h1 h2
    show String.mk (replaceAll s96L s320L (replaceAll webL aacL s.data)) = s
    rw [replaceAll_id webL aacL s.data h1, replaceAll_id s96L s320L s.data h2]

/-- Witness for C7: a URL with neither pattern satisfies the hypotheses and
is returned unchanged. -/
theorem C7_transform_pure_idempotent_witness :
    (¬ occursIn webL ("https://example.com/a.mp3").data) ∧
    (¬ occursIn s96L ("https://example.com/a.mp3").data) ∧
    transformUrl ("https://example.com/a.mp3") = ("https://example.com/a.mp3") :=
  ⟨by decide, by decide,
    C7_transform_pure_idempotent.2.2 ("https://example.com/a.mp3")
      (by decide) (by decide)⟩

/-- C1 counterexample: on an auth_url holding two occurrences of the bitrate
suffix pattern, the code (str.replace) rewrites both occurrences, while the
claimed first-occurrence-only substitution rewrites only the first, so the
two semantics differ at this input. -/
theorem C1_counterexample :
    transformUrl ("https://web.saavncdn.com/a_96.mp4_96.mp4") =
      ("https://aac.saavncdn.com/a_320.mp4_320.mp4") ∧
    pyReplaceFirst (pyReplaceFirst ("https://web.saavncdn.com/a_96.mp4_96.mp4")
        ("web.saavncdn.com") ("aac.saavncdn.com")) ("_96.mp4") ("_320.mp4") =
      ("https://aac.saavncdn.com/a_320.mp4_96.mp4") ∧
    ("https://aac.saavncdn.com/a_320.mp4_320.mp4" : String) ≠
      ("https://aac.saavncdn.com/a_320.mp4_96.mp4") :=
  ⟨by decide, by decide, by decide⟩

/-- C1 (amended): each of the two substitutions is a literal substring
replacement applied to every (non-overlapping, left-to-right) occurrence of
its pattern — no occurrence remains afterwards — and for every auth_url in
which a pattern is absent, that substitution leaves the string unmodified
and no error is raised. -/
theorem C1_substitutions_every_occurrence (s : String) :
    (¬ occursIn webL s.data →
      pyReplace s ("web.saavncdn.com") ("aac.saavncdn.com") = s) ∧
    (¬ occursIn s96L s.data → pyReplace s ("_96.mp4") ("_320.mp4") = s) ∧
    ¬ occursIn webL (pyReplace s ("web.saavncdn.com") ("aac.saavncdn.com")).data ∧
    ¬ occursIn s96L (pyReplace s ("_96.mp4") ("_320.mp4")).data := by
  refine ⟨?_, ?_, web_free s.data, s96_free s.data⟩
  · intro h
    show String.mk (replaceAll webL aacL s.data) = s
    rw [replaceAll_id webL aacL s.data h]
  · intro h
    show String.mk (replaceAll s96L s320L s.data) = s
    rw [replaceAll_id s96L s320L s.data h]

/-- Witness for C1 (amended): a URL without the host pattern is left
unchanged by the host substitution. -/
theorem C1_substitutions_every_occurrence_witness :
    (¬ occursIn webL ("https://x.mp3").data) ∧
    pyReplace ("https://x.mp3") ("web.saavncdn.com") ("aac.saavncdn.com") =
      ("https://x.mp3") :=
  ⟨by decide, (C1_substitutions_every_occurrence ("https://x.mp3")).1 (by decide)⟩

/-! ### Lemmas about the body cleaning -/

theorem findIdx_cons (c b : Char) (l : List Char) :
    findIdx c (b :: l) =
      if b = c then some 0 else (findIdx c l).map (· + 1) := rfl

theorem findIdx_eq_none (c : Char) :
    ∀ l : List Char, memC c l = false → findIdx c l = none := by
  intro l
  induction l with
  | nil => intro _; rfl
  | cons b l ih =>
    intro h
    simp only [memC, Bool.or_eq_false_iff, decide_eq_false_iff_not] at h
    rw [findIdx_cons, if_neg h.1, ih h.2, Option.map_none']

theorem findIdx_append (c : Char) (P B : List Char) (hP : memC c P = false) :
    findIdx c (P ++ B) =
      (findIdx c B).map (fun i => P.length + i) := by
  induction P with
  | nil =>
    cases h : findIdx c B <;> simp [h]
  | cons b P ih =>
    simp only [memC, Bool.or_eq_false_iff, decide_eq_false_iff_not] at hP
    rw [List.cons_append, findIdx_cons, if_neg hP.1, ih hP.2]
    cases h : findIdx c B with
    | none => rfl
    | some i =>
      rw [Option.map_some', Option.map_some', Option.map_some']
      have harith : P.length + i + 1 = (b :: P).length + i := by
        rw [List.length_cons]
        omega
      rw [harith]

theorem cleanL_append (P B : List Char) (hP : memC '{' P = false)
    (hB : B ≠ []) : cleanL (P ++ B) = cleanL B := by
  unfold cleanL
  rw [findIdx_append '{' P B hP]
  cases h : findIdx '{' B with
  | some i =>
    rw [Option.map_some']
    show List.drop (P.length + i) (P ++ B) = List.drop i B
    rw [← List.drop_drop, List.drop_left]
  | none =>
    rw [Option.map_none']
    obtain ⟨c, r, hrev⟩ : ∃ c r, B.reverse = c :: r := by
      cases hr : B.reverse with
      | nil => exact absurd (List.reverse_eq_nil_iff.mp hr) hB
      | cons c r => exact ⟨c, r, rfl⟩
    rw [List.reverse_append, hrev]
    rfl

theorem cleanL_braceless (l : List Char) (h : memC '{' l = false) :
    memC '{' (cleanL l) = false := by
  unfold cleanL
  rw [findIdx_eq_none '{' l h]
  cases hr : l.reverse with
  | nil => rfl
  | cons c r =>
    have hc : c ∈ l := by
      rw [← List.mem_reverse, hr]
      exact List.mem_cons_self c r
    have hne : ¬ c = '{' := by
      intro he
      rw [he] at hc
      rw [← memC_iff] at hc
      rw [h] at hc
      exact Bool.noConfusion hc
    simp [memC, hne]

/-! ### Search claims -/

/-- C3 (amended): for every non-empty query, search never raises: any
network failure, any status other than 200, or any parse failure yields
exactly the empty list, and a status-200 response whose cleaned body parses
to an object yields its results field (empty list when absent). -/
theorem C3_search_degrades (loads : String → Option Json)
    (net : String → Option HttpResponse) (q : String) (hq : q ≠ "") :
    (net (searchUrl q) = none → search_songs loads net q = .arr []) ∧
    (∀ r, net (searchUrl q) = some r → r.status ≠ 200 →
      search_songs loads net q = .arr []) ∧
    (∀ r, net (searchUrl q) = some r → r.status = 200 →
      loads (cleanJson r.text) = none → search_songs loads net q = .arr []) ∧
    (∀ r fs, net (searchUrl q) = some r → r.status = 200 →
      loads (cleanJson r.text) = some (.obj fs) →
      search_songs loads net q = (fs.lookup "results").getD (.arr [])) := by
  refine ⟨?_, ?_, ?_, ?_⟩
  · intro h
    unfold search_songs
    rw [h]
  · intro r hr hst
    unfold search_songs
    simp only [hr]
    rw [if_neg hst]
  · intro r hr hst hld
    unfold search_songs
    simp [hr, hst, hld]
  · intro r fs hr hst hld
    unfold search_songs
    simp [hr, hst, hld]

/-- A stub network for the C3 witness: the search URL of the query w gets a
status-500 response. -/
def netC3w : String → Option HttpResponse := fun u =>
  if u = searchUrl ("w") then some ⟨500, "oops"⟩ else none

/-- Witness for C3 (amended): a status-500 response degrades to the empty
list. -/
theorem C3_search_degrades_witness :
    ("w" : String) ≠ "" ∧
    search_songs (fun _ => none) netC3w ("w") = .arr [] :=
  ⟨by decide,
    (C3_search_degrades (fun _ => none) netC3w ("w") (by decide)).2.1
      ⟨500, "oops"⟩ (by rfl) (by decide)⟩

/-- The counterexample body for C3: a valid JSON object with a results
field. -/
def bodyC3 : String := "\x7b\"results\":[1]\x7d"

/-- A parse oracle mapping the counterexample body to its JSON value. -/
def loadsC3 : String → Option Json := fun t =>
  if t = bodyC3 then some (.obj [("results", .arr [.num 1])]) else none

/-- A network answering the search URL of query q with status 201 and the
counterexample body. -/
def netC3 : String → Option HttpResponse := fun u =>
  if u = searchUrl ("q") then some ⟨201, bodyC3⟩ else none

/-- C3 counterexample: a 201 (2xx) response whose body parses to an object
with a non-empty results field still yields the empty list — the code tests
status == 200, not 2xx, so by the claim this success case should return the
results field, but it does not. -/
theorem C3_counterexample :
    search_songs loadsC3 netC3 ("q") = .arr [] ∧
    loadsC3 (cleanJson bodyC3) = some (.obj [("results", .arr [.num 1])]) ∧
    Json.arr [] ≠ Json.arr [.num 1] := by
  refine ⟨rfl, rfl, ?_⟩
  intro h
  injection h with h2
  exact List.noConfusion h2

/-- C9: a search response whose body contains no brace at all still cannot
raise: for every parse oracle that never produces a JSON object from a
brace-free text (json.loads cannot: an object literal contains a brace),
the call returns the empty list. -/
theorem C9_braceless_body_empty (loads : String → Option Json)
    (net : String → Option HttpResponse) (q : String) (st : Nat)
    (body : String)
    (hnet : net (searchUrl q) = some ⟨st, body⟩)
    (hbody : memC '{' body.data = false)
    (hloads : ∀ t fs, memC '{' t.data = false → loads t ≠ some (.obj fs)) :
    search_songs loads net q = .arr [] := by
  unfold search_songs
  simp only [hnet]
  by_cases hst : st = 200
  · rw [if_pos hst]
    have hclean : memC '{' (cleanJson body).data = false :=
      cleanL_braceless body.data hbody
    cases hld : loads (cleanJson body) with
    | none => rfl
    | some d =>
      cases d with
      | obj fs => exact absurd hld (hloads (cleanJson body) fs hclean)
      | null => rfl
      | bool b => rfl
      | num n => rfl
      | str t => rfl
      | arr xs => rfl
  · rw [if_neg hst]


/-- A stub network for the C9 witness: a braceless status-200 body. -/
def netC9w : String → Option HttpResponse := fun u =>
  if u = searchUrl ("v") then some ⟨200, "7"⟩ else none

/-- Witness for C9: the braceless body 7 with status 200 yields the empty
list under the oracle that always fails to parse. -/
theorem C9_braceless_body_empty_witness :
    memC '{' ("7").data = false ∧
    search_songs (fun _ => none) netC9w ("v") = .arr [] :=
  ⟨by decide,
    C9_braceless_body_empty (fun _ => none) netC9w ("v") 200 ("7") (by rfl)
      (by decide) (fun t fs _ => by simp)⟩

/-- C6: prefixing a 200 response body with non-JSON noise containing no
brace does not change the result of search — the client parses from the
first brace onward. -/
theorem C6_prefix_stripping (loads : String → Option Json)
    (net net2 : String → Option HttpResponse) (q : String) (st : Nat)
    (P B : String)
    (h1 : net (searchUrl q) = some ⟨st, P ++ B⟩)
    (h2 : net2 (searchUrl q) = some ⟨st, B⟩)
    (hP : memC '{' P.data = false) (hB : B ≠ "") :
    search_songs loads net q = search_songs loads net2 q := by
  have hBd : B.data ≠ [] := by
    intro h
    apply hB
    cases B with
    | mk d => cases h; rfl
  have hclean : cleanJson (P ++ B) = cleanJson B := by
    unfold cleanJson
    rw [String.data_append, cleanL_append P.data B.data hP hBd]
  unfold search_songs
  simp only [h1, h2, hclean]

/-- A stub network for the C6 witness, serving the prefixed body. -/
def netC6a : String → Option HttpResponse := fun u =>
  if u = searchUrl ("u") then some ⟨200, "no" ++ "7"⟩ else none

/-- A stub network for the C6 witness, serving the bare body. -/
def netC6b : String → Option HttpResponse := fun u =>
  if u = searchUrl ("u") then some ⟨200, "7"⟩ else none

/-- Witness for C6 at a concrete prefix and body. -/
theorem C6_prefix_stripping_witness :
    memC '{' ("no").data = false ∧ ("7" : String) ≠ "" ∧
    search_songs (fun _ => none) netC6a ("u") =
      search_songs (fun _ => none) netC6b ("u") :=
  ⟨by decide, by decide,
    C6_prefix_stripping (fun _ => none) netC6a netC6b ("u") 200 ("no") ("7")
      (by rfl) (by rfl) (by decide) (by decide)⟩

/-! ### Streaming claims -/

/-- C8: each outbound request URL is the single base endpoint with the
operation selector, the operation's own parameters, and the four fixed
protocol parameters appended: q for search, pids for details, url and
bitrate=320 for token generation. -/
theorem C8_request_urls (q sid enc : String) :
    searchUrl q =
      ("https://www.jiosaavn.com/api.php?__call=search.getResults&q=")
        ++ quote q ++ ("&_format=json&_marker=0&api_version=4&ctx=web6dot0") ∧
    detailsUrl sid =
      ("https://www.jiosaavn.com/api.php?__call=song.getDetails&pids=")
        ++ sid ++ ("&_format=json&_marker=0&api_version=4&ctx=web6dot0") ∧
    tokenUrl enc =
      ("https://www.jiosaavn.com/api.php?__call=song.generateAuthToken&url=")
        ++ quote enc
        ++ ("&bitrate=320&_format=json&_marker=0&api_version=4&ctx=web6dot0") := by
  refine ⟨?_, ?_, ?_⟩
  · show BASE_URL ++ ("?__call=search.getResults&q=") ++ quote q
        ++ API_PARAMS = _
    rw [show (BASE_URL ++ ("?__call=search.getResults&q=") : String) =
      ("https://www.jiosaavn.com/api.php?__call=search.getResults&q=") from
        by decide]
    rfl
  · show BASE_URL ++ ("?__call=song.getDetails&pids=") ++ sid
        ++ API_PARAMS = _
    rw [show (BASE_URL ++ ("?__call=song.getDetails&pids=") : String) =
      ("https://www.jiosaavn.com/api.php?__call=song.getDetails&pids=") from
        by decide]
    rfl
  · show BASE_URL ++ ("?__call=song.generateAuthToken&url=") ++ quote enc
        ++ ("&bitrate=320") ++ API_PARAMS = _
    rw [show (BASE_URL ++ ("?__call=song.generateAuthToken&url=") : String) =
      ("https://www.jiosaavn.com/api.php?__call=song.generateAuthToken&url=")
        from by decide]
    rw [String.append_assoc]
    rw [show (("&bitrate=320") ++ API_PARAMS : String) =
      ("&bitrate=320&_format=json&_marker=0&api_version=4&ctx=web6dot0") from
        by decide]

/-- The details body of the end-to-end scenario C2. -/
def detailsBodyC2 : String :=
  "\x7b\"songs\":[\x7b\"more_info\":\x7b\"encrypted_media_url\":\"E1\"\x7d\x7d]\x7d"

/-- The token body of the end-to-end scenario C2. -/
def tokenBodyC2 : String :=
  "\x7b\"auth_url\":\"https://web.saavncdn.com/s_96.mp4\"\x7d"

/-- A parse oracle mapping the two C2 bodies to their JSON values. -/
def loadsC2 : String → Option Json := fun t =>
  if t = detailsBodyC2 then
    some (.obj [("songs", .arr [.obj [("more_info",
      .obj [("encrypted_media_url", .str ("E1"))])]])])
  else if t = tokenBodyC2 then
    some (.obj [("auth_url", .str ("https://web.saavncdn.com/s_96.mp4"))])
  else none

/-- The C2 network: the details URL of song1 yields the details body; only
the token URL built from the percent-encoding of E1 with bitrate=320 yields
the token body. -/
def netC2 : String → Option HttpResponse := fun u =>
  if u = detailsUrl ("song1") then some ⟨200, detailsBodyC2⟩
  else if u = tokenUrl ("E1") then some ⟨200, tokenBodyC2⟩
  else none

/-- C2: end-to-end, a details response binding encrypted_media_url to E1
followed by a token response (served only at the URL carrying the
percent-encoding of E1 and bitrate=320) whose auth_url is
https://web.saavncdn.com/s_96.mp4 resolves to exactly
https://aac.saavncdn.com/s_320.mp4. -/
theorem C2_end_to_end :
    get_streaming_url loadsC2 netC2 ("song1") =
      .ok ("https://aac.saavncdn.com/s_320.mp4") := rfl

/-- C10: get_streaming_url never inspects the HTTP status code of either
response: two networks whose responses agree on presence and body text at
every URL produce the same outcome, whatever the status codes. -/
theorem C10_status_never_inspected (loads : String → Option Json)
    (net net2 : String → Option HttpResponse) (sid : String)
    (h : ∀ u, (net u).map HttpResponse.text = (net2 u).map HttpResponse.text) :
    get_streaming_url loads net sid = get_streaming_url loads net2 sid := by
  have key1 : ∀ (a b : HttpResponse), a.text = b.text →
      step1 loads (some a) = step1 loads (some b) := by
    rintro ⟨s1, t1⟩ ⟨s2, t2⟩ ht
    have ht2 : t1 = t2 := ht
    subst ht2
    rfl
  have key2 : ∀ (a b : HttpResponse), a.text = b.text →
      step2 loads (some a) = step2 loads (some b) := by
    rintro ⟨s1, t1⟩ ⟨s2, t2⟩ ht
    have ht2 : t1 = t2 := ht
    subst ht2
    rfl
  have hstep1 : ∀ u, step1 loads (net u) = step1 loads (net2 u) := by
    intro u
    have hu := h u
    cases h1 : net u with
    | none =>
      cases h2 : net2 u with
      | none => rfl
      | some r2 =>
        rw [h1, h2] at hu
        exact absurd hu (by simp)
    | some r1 =>
      cases h2 : net2 u with
      | none =>
        rw [h1, h2] at hu
        exact absurd hu (by simp)
      | some r2 =>
        rw [h1, h2, Option.map_some', Option.map_some'] at hu
        exact key1 r1 r2 (Option.some.inj hu)
  have hstep2 : ∀ u, step2 loads (net u) = step2 loads (net2 u) := by
    intro u
    have hu := h u
    cases h1 : net u with
    | none =>
      cases h2 : net2 u with
      | none => rfl
      | some r2 =>
        rw [h1, h2] at hu
        exact absurd hu (by simp)
    | some r1 =>
      cases h2 : net2 u with
      | none =>
        rw [h1, h2] at hu
        exact absurd hu (by simp)
      | some r2 =>
        rw [h1, h2, Option.map_some', Option.map_some'] at hu
        exact key2 r1 r2 (Option.some.inj hu)
  unfold get_streaming_url
  rw [hstep1 (detailsUrl sid)]
  cases step1 loads (net2 (detailsUrl sid)) with
  | error e => rfl
  | ok v =>
    cases v with
    | str enc => exact hstep2 (tokenUrl enc)
    | null => rfl
    | bool b => rfl
    | num n => rfl
    | arr xs => rfl
    | obj fs => rfl

/-- The C10 witness network: same bodies as netC2 but failure status codes
500 and 404. -/
def netC10 : String → Option HttpResponse := fun u =>
  if u = detailsUrl ("song1") then some ⟨500, detailsBodyC2⟩
  else if u = tokenUrl ("E1") then some ⟨404, tokenBodyC2⟩
  else none

/-- Witness for C10: swapping the status codes 200/200 for 500/404 leaves
the outcome untouched — a non-2xx details response with a usable body still
proceeds to the token step and resolves. -/
theorem C10_status_never_inspected_witness :
    get_streaming_url loadsC2 netC2 ("song1") =
      get_streaming_url loadsC2 netC10 ("song1") :=
  C10_status_never_inspected loadsC2 netC2 netC10 ("song1")
    (by
      intro u
      unfold netC2 netC10
      split_ifs <;> rfl)

/-- C4 (amended): a details response that lacks a songs collection, has an
empty songs collection, or whose first entry's more_info mapping does not
contain the key encrypted_media_url at all fails with the details error, and
the outcome is the same under every network that agrees on the details
response — no second (token) request is consulted.  (When the key is present
but bound to a non-string value, a type error escapes instead: see the
counterexample.) -/
theorem C4_details_validation (loads : String → Option Json)
    (net : String → Option HttpResponse) (sid : String) (r : HttpResponse)
    (data : Json)
    (hr : net (detailsUrl sid) = some r)
    (hl : loads r.text = some data)
    (hcase :
      (∃ fs, data = .obj fs ∧ fs.lookup ("songs") = none) ∨
      (∃ fs, data = .obj fs ∧ fs.lookup ("songs") = some (.arr [])) ∨
      (∃ fs g m rest, data = .obj fs ∧
        fs.lookup ("songs") = some (.arr (.obj g :: rest)) ∧
        (g.lookup ("more_info")).getD (.obj []) = .obj m ∧
        m.lookup ("encrypted_media_url") = none)) :
    ∀ net2 : String → Option HttpResponse,
      net2 (detailsUrl sid) = net (detailsUrl sid) →
      get_streaming_url loads net2 sid = .error .detailsNotFound := by
  have herr : step1Data data = .error () := by
    rcases hcase with ⟨fs, rfl, hlook⟩ | ⟨fs, rfl, hlook⟩ |
      ⟨fs, g, m, rest, rfl, hlook, hmi, hmenc⟩
    · simp [step1Data, jsonHasKey, hlook]
    · simp [step1Data, jsonHasKey, jsonIndex, jsonLen, hlook]
    · simp [step1Data, jsonHasKey, jsonIndex, jsonLen, jsonIndexZero,
        jsonGetD, hlook, hmi, hmenc]
  intro net2 hnet2
  have hs1 : step1 loads (net2 (detailsUrl sid)) = .error () := by
    rw [hnet2, hr]
    unfold step1
    simp [hl, herr]
  unfold get_streaming_url
  rw [hs1]

/-- The C4 witness body: an empty songs collection. -/
def detailsBodyC4w : String := "\x7b\"songs\":[]\x7d"

/-- A parse oracle for the C4 witness. -/
def loadsC4w : String → Option Json := fun t =>
  if t = detailsBodyC4w then some (.obj [("songs", .arr [])]) else none

/-- A network serving the C4 witness body at the details URL of s0. -/
def netC4w : String → Option HttpResponse := fun u =>
  if u = detailsUrl ("s0") then some ⟨200, detailsBodyC4w⟩ else none

/-- Witness for C4 (amended): an empty songs collection yields the details
error. -/
theorem C4_details_validation_witness :
    get_streaming_url loadsC4w netC4w ("s0") = .error .detailsNotFound :=
  C4_details_validation loadsC4w netC4w ("s0") ⟨200, detailsBodyC4w⟩
    (.obj [("songs", .arr [])]) (by rfl) (by rfl)
    (Or.inr (Or.inl ⟨[("songs", .arr [])], rfl, by rfl⟩))
    netC4w (by rfl)

/-- The C4 counterexample body: encrypted_media_url bound to a number. -/
def detailsBodyC4 : String :=
  "\x7b\"songs\":[\x7b\"more_info\":\x7b\"encrypted_media_url\":5\x7d\x7d]\x7d"

/-- A parse oracle for the C4 counterexample. -/
def loadsC4 : String → Option Json := fun t =>
  if t = detailsBodyC4 then
    some (.obj [("songs", .arr [.obj [("more_info",
      .obj [("encrypted_media_url", .num 5)])]])])
  else none

/-- A network serving the C4 counterexample body at the details URL of s4. -/
def netC4 : String → Option HttpResponse := fun u =>
  if u = detailsUrl ("s4") then some ⟨200, detailsBodyC4⟩ else none

/-- C4 counterexample: the first entry's more_info mapping has no
encrypted_media_url string (the key is bound to the number 5), yet the
operation does not fail with the details error — the TypeError raised by
urllib.parse.quote on a non-string escapes both try blocks. -/
theorem C4_counterexample :
    get_streaming_url loadsC4 netC4 ("s4") = .error .uncaughtTypeError ∧
    StreamErr.uncaughtTypeError ≠ StreamErr.detailsNotFound :=
  ⟨rfl, by decide⟩

/-- C5: when step 1 succeeds with a string encrypted_media_url but the token
response cannot be parsed, lacks auth_url, or binds auth_url to a
non-string, the operation fails with the token error and returns no
partial result. -/
theorem C5_token_validation (loads : String → Option Json)
    (net : String → Option HttpResponse) (sid enc : String)
    (hstep1 : step1 loads (net (detailsUrl sid)) = .ok (.str enc))
    (hcase :
      (∃ r2, net (tokenUrl enc) = some r2 ∧ loads r2.text = none) ∨
      (∃ r2 fs, net (tokenUrl enc) = some r2 ∧
        loads r2.text = some (.obj fs) ∧ fs.lookup ("auth_url") = none) ∨
      (∃ r2 fs v, net (tokenUrl enc) = some r2 ∧
        loads r2.text = some (.obj fs) ∧ fs.lookup ("auth_url") = some v ∧
        ∀ u, v ≠ .str u)) :
    get_streaming_url loads net sid = .error .tokenExpiredOrInvalid := by
  unfold get_streaming_url
  rw [hstep1]
  show step2 loads (net (tokenUrl enc)) = .error .tokenExpiredOrInvalid
  rcases hcase with ⟨r2, hr2, hld⟩ | ⟨r2, fs, hr2, hld, hlook⟩ |
    ⟨r2, fs, v, hr2, hld, hlook, hv⟩
  · rw [hr2]
    unfold step2
    simp [hld]
  · rw [hr2]
    unfold step2
    simp [hld, hlook]
  · rw [hr2]
    unfold step2
    simp only [hld, hlook]
    cases v with
    | str u => exact absurd rfl (hv u)
    | null => rfl
    | bool b => rfl
    | num n => rfl
    | arr xs => rfl
    | obj g => rfl

/-- The C5 witness details body: a valid details response with the
encrypted reference E5. -/
def detailsBodyC5 : String :=
  "\x7b\"songs\":[\x7b\"more_info\":\x7b\"encrypted_media_url\":\"E5\"\x7d\x7d]\x7d"

/-- A parse oracle for the C5 witness: the token body is unparseable. -/
def loadsC5 : String → Option Json := fun t =>
  if t = detailsBodyC5 then
    some (.obj [("songs", .arr [.obj [("more_info",
      .obj [("encrypted_media_url", .str ("E5"))])]])])
  else none

/-- A network for the C5 witness: a good details response, a garbage token
response. -/
def netC5 : String → Option HttpResponse := fun u =>
  if u = detailsUrl ("s5") then some ⟨200, detailsBodyC5⟩
  else if u = tokenUrl ("E5") then some ⟨200, "notjson"⟩
  else none

/-- Witness for C5: an unparseable token body yields the token error. -/
theorem C5_token_validation_witness :
    get_streaming_url loadsC5 netC5 ("s5") = .error .tokenExpiredOrInvalid :=
  C5_token_validation loadsC5 netC5 ("s5") ("E5") (by rfl)
    (Or.inl ⟨⟨200, "notjson"⟩, by rfl, by rfl⟩)

end Rhythmix
